import Mathlib

/-!
Verification development for the image-edit CLI of the
`marketing-asset-creation-agent` repository.

The Go code under scrutiny is the `generate` command: it builds a
multipart/form-data request carrying one or two images plus the scalar
fields `prompt`, `n`, `size`, sends it to the Azure OpenAI
`/images/edits` endpoint, and decodes the JSON response envelope
(`data[0].b64_json` on success, `error.{message,type,code}` on failure),
writing the base64-decoded bytes to an output path derived from the
input path.

Strings are modelled as Lean `String`s and manipulated through their
underlying `List Char`; file contents are abstract strings (for the
request side) or lists of byte values (`Nat` below 256, for the
response side).  The Go standard-library functions the code calls
(`path/filepath`, `mime/multipart`, `encoding/base64`) are embedded
following their documented Unix semantics.
-/

/-- `containsSub s pat` is true when `pat` occurs as a contiguous
substring of `s` (models Go `strings.Contains` on byte strings). -/
def containsSub : List Char → List Char → Bool
  | [], pat => pat.isPrefixOf []
  | c :: rest, pat => pat.isPrefixOf (c :: rest) || containsSub rest pat

/-- Split a character list at every occurrence of `sep` (models
splitting a Unix path into `/`-separated segments). -/
def splitChar (sep : Char) : List Char → List (List Char)
  | [] => [[]]
  | c :: cs =>
    if c = sep then
      [] :: splitChar sep cs
    else
      match splitChar sep cs with
      | [] => [[c]]
      | seg :: segs => (c :: seg) :: segs

/-- Interleave `/` between path segments (inverse of `splitChar '/'` on
clean paths). -/
def joinSegs : List (List Char) → List Char
  | [] => []
  | [seg] => seg
  | seg :: rest => seg ++ '/' :: joinSegs rest

/-- One step of the lexical path simplification performed by Go
`path/filepath.Clean`: empty and `.` segments are dropped, `..` pops
the previous segment (or is kept when there is nothing to pop in a
relative path, or dropped at the root of an absolute path), every
other segment is pushed.  The stack is kept in reverse order. -/
def cleanPush (rooted : Bool) (stack : List (List Char)) (seg : List Char) : List (List Char) :=
  if seg = [] ∨ seg = ['.'] then
    stack
  else if seg = ['.', '.'] then
    match stack with
    | top :: rest => if top = ['.', '.'] then seg :: stack else rest
    | [] => if rooted then [] else [seg]
  else
    seg :: stack

/-- Go `path/filepath.Clean` (Unix): lexical simplification of a path.
Modelled segment-wise; equivalent to the index-based loop in the Go
standard library. -/
def filepathClean (path : String) : String :=
  match path.data with
  | [] => "."
  | c :: cs =>
    let rooted := c = '/'
    let segs := splitChar '/' (c :: cs)
    let kept := (segs.foldl (cleanPush rooted) []).reverse
    let joined := joinSegs kept
    if rooted then ⟨'/' :: joined⟩
    else if joined = [] then "."
    else ⟨joined⟩

/-- Go `path/filepath.Dir` (Unix): everything up to and including the
final slash, then `Clean`; `.` when the path holds no slash. -/
def filepathDir (path : String) : String :=
  filepathClean ⟨(path.data.reverse.dropWhile (fun c => c ≠ '/')).reverse⟩

/-- Go `path/filepath.Base` (Unix): the last element of the path after
trailing slashes are removed; `.` for the empty path, `/` when the
path is all slashes. -/
def filepathBase (path : String) : String :=
  if path = "" then "."
  else
    let stripped := path.data.reverse.dropWhile (fun c => c = '/')
    let name := stripped.takeWhile (fun c => c ≠ '/')
    if name = [] then "/" else ⟨name.reverse⟩

/-- Go `path/filepath.Ext`: the suffix of the final path element
starting at its last dot; empty when the final element has no dot. -/
def filepathExt (path : String) : String :=
  let revTail := path.data.reverse.takeWhile (fun c => c ≠ '/')
  let pre := revTail.takeWhile (fun c => c ≠ '.')
  if pre.length = revTail.length then "" else ⟨'.' :: pre.reverse⟩

/-- Go `strings.TrimSuffix`: drop `suffix` from the end of `s` when it
is present, otherwise return `s` unchanged. -/
def trimSuffix (s suffix : String) : String :=
  if suffix.data.isSuffixOf s.data then
    ⟨s.data.take (s.data.length - suffix.data.length)⟩
  else s

/-- Go `path/filepath.Join` on two elements (Unix): empty elements are
skipped, the rest are joined with `/` and the result is cleaned. -/
def filepathJoin (dir file : String) : String :=
  if dir = "" then
    if file = "" then "" else filepathClean file
  else
    filepathClean (dir ++ "/" ++ file)

/-- `deriveOutputPath` from `cmd/generate/main.go`: returns the output
file path by appending `"_generated"` before the file extension. -/
def deriveOutputPath (input : String) : String :=
  let dir := filepathDir input
  let ext := filepathExt input
  let name := trimSuffix (filepathBase input) ext
  filepathJoin dir (name ++ "_generated" ++ ext)

/-- Go `mime.TypeByExtension` restricted to the table built into the Go
standard library (`mime/type.go`); the lookup lowercases the extension
first.  System-installed MIME tables are deployment specific and are
not modelled. -/
def typeByExtension (ext : String) : String :=
  let e : String := ⟨ext.data.map Char.toLower⟩
  if e = ".avif" then "image/avif"
  else if e = ".css" then "text/css; charset=utf-8"
  else if e = ".gif" then "image/gif"
  else if e = ".htm" then "text/html; charset=utf-8"
  else if e = ".html" then "text/html; charset=utf-8"
  else if e = ".jpeg" then "image/jpeg"
  else if e = ".jpg" then "image/jpeg"
  else if e = ".js" then "text/javascript; charset=utf-8"
  else if e = ".json" then "application/json"
  else if e = ".mjs" then "text/javascript; charset=utf-8"
  else if e = ".pdf" then "application/pdf"
  else if e = ".png" then "image/png"
  else if e = ".svg" then "image/svg+xml"
  else if e = ".wasm" then "application/wasm"
  else if e = ".webp" then "image/webp"
  else if e = ".xml" then "text/xml; charset=utf-8"
  else ""

/-- Go `mime/multipart.escapeQuotes`: backslash-escape `\` and `"` in a
field name before it is placed inside a quoted string. -/
def escapeQuotes (s : String) : String :=
  ⟨s.data.foldr (fun c acc => if c = '\\' ∨ c = '"' then '\\' :: c :: acc else c :: acc) []⟩

/-- One part of a multipart/form-data body, as produced by
`multipart.Writer.CreatePart`: the `Content-Disposition` header value,
an optional `Content-Type` header value, and the part content.  (The
writer serialises header keys in sorted order, so `Content-Disposition`
always precedes `Content-Type`.) -/
structure MIMEPart where
  disposition : String
  ctype : Option String
  content : String
deriving DecidableEq

/-- The part built by `addImagePart` for a readable image file: the Go
code formats `form-data; name="<field>"; filename="<base>"` itself (no
quote escaping) and attaches the MIME type resolved from the file
extension, falling back to `application/octet-stream`. -/
def mkImagePart (fieldName imagePath content : String) : MIMEPart :=
  let mt := typeByExtension (filepathExt imagePath)
  { disposition := "form-data; name=\"" ++ fieldName ++ "\"; filename=\"" ++ filepathBase imagePath ++ "\"",
    ctype := some (if mt = "" then "application/octet-stream" else mt),
    content := content }

/-- `addImagePart` from `cmd/generate/main.go`, with the file system
modelled as a partial map from path to content: opening a missing file
aborts with an error naming the offending path. -/
def addImagePart (fs : String → Option String) (fieldName imagePath : String) :
    Except String MIMEPart :=
  match fs imagePath with
  | none => .error ("opening image " ++ imagePath ++ ": no such file")
  | some content => .ok (mkImagePart fieldName imagePath content)

/-- The part built by `multipart.Writer.WriteField` (via
`CreateFormField`): a quote-escaped field name, no `Content-Type`
header, and the field value as content. -/
def textFieldPart (k v : String) : MIMEPart :=
  { disposition := "form-data; name=\"" ++ escapeQuotes k ++ "\"",
    ctype := none,
    content := v }

/-- The sequence of parts written by `buildMultipartBody`: one part per
image path (field name `image`, or `image[]` when more than one image
is supplied), followed by the scalar text fields.  Go iterates the
text-field map `{"prompt": prompt, "n": "1", "size": size}` in an
unspecified order, so the fields are taken here as an explicit list;
the theorems quantify over every permutation of the canonical list. -/
def buildMultipartParts (fs : String → Option String) (imagePaths : List String)
    (textFields : List (String × String)) : Except String (List MIMEPart) := do
  let fieldName := if imagePaths.length > 1 then "image[]" else "image"
  let imageParts ← imagePaths.mapM (addImagePart fs fieldName)
  return imageParts ++ textFields.map (fun kv => textFieldPart kv.1 kv.2)

/-- The canonical text-field list of `buildMultipartBody` (the entries
of the Go map literal). -/
def canonicalTextFields (prompt size : String) : List (String × String) :=
  [("prompt", prompt), ("n", "1"), ("size", size)]

/-- Serialisation of one part's header block and content, as written by
`multipart.Writer.CreatePart` after the boundary delimiter line. -/
def serializeHeaderBlock (p : MIMEPart) : String :=
  "Content-Disposition: " ++ p.disposition ++ "\r\n" ++
    (match p.ctype with
     | some t => "Content-Type: " ++ t ++ "\r\n"
     | none => "") ++
    "\r\n" ++ p.content

/-- Serialisation of a list of parts: the first part is preceded by
`--boundary\r\n`, every later part by `\r\n--boundary\r\n` (this is the
delimiter `CreatePart` writes before each part). -/
def serializeFrom (boundary : String) (first : Bool) : List MIMEPart → String
  | [] => ""
  | p :: ps =>
    (if first then "--" else "\r\n--") ++ boundary ++ "\r\n" ++
      serializeHeaderBlock p ++ serializeFrom boundary false ps

/-- The closing delimiter written by `multipart.Writer.Close`. -/
def multipartClose (boundary : String) : String :=
  "\r\n--" ++ boundary ++ "--\r\n"

/-- Go `multipart.Writer.FormDataContentType`: the boundary parameter
is quoted exactly when the boundary holds a character special to MIME
parameter syntax. -/
def formDataContentType (boundary : String) : String :=
  if boundary.data.any (fun c =>
      c ∈ ['(', ')', '<', '>', '@', ',', ';', ':', '\\', '"', '/', '[', ']', '?', '=', ' ']) then
    "multipart/form-data; boundary=\"" ++ boundary ++ "\""
  else
    "multipart/form-data; boundary=" ++ boundary

/-- `buildMultipartBody` from `cmd/generate/main.go`: serialises the
parts between boundary delimiters, closes the writer, and returns the
body bytes together with the matching `Content-Type` string.  The
boundary (chosen at random by `multipart.NewWriter`) and the text-field
order (Go map iteration) are explicit parameters of the model. -/
def buildMultipartBody (fs : String → Option String) (boundary : String)
    (imagePaths : List String) (textFields : List (String × String)) :
    Except String (String × String) :=
  (buildMultipartParts fs imagePaths textFields).map fun parts =>
    (serializeFrom boundary true parts ++ multipartClose boundary,
     formDataContentType boundary)

/-- The image-path list assembled by `main`: the background image (when
the `-b` flag is non-empty) first, then the foreground image. -/
def assembleImages (bgImage inputImage : String) : List String :=
  (if bgImage = "" then [] else [bgImage]) ++ [inputImage]

/-- The standard base64 alphabet used by Go `base64.StdEncoding`. -/
def b64Alphabet : List Char :=
  "ABCDEFGHIJKLMNOPQRSTUVWXYZabcdefghijklmnopqrstuvwxyz0123456789+/".data

/-- Character for a six-bit value (alphabet indexing, as in Go
`Encoding.Encode`). -/
def sextetToChar (s : Nat) : Char :=
  b64Alphabet.getD s 'A'

/-- Six-bit value of an alphabet character, `none` for characters
outside the alphabet (Go's `decodeMap`). -/
def charToSextet (c : Char) : Option Nat :=
  b64Alphabet.indexOf? c

/-- Go `base64.StdEncoding.EncodeToString` on byte values: full
three-byte groups become four alphabet characters; a trailing one- or
two-byte group is padded with `=` to a four-character quantum. -/
def b64encodeList : List Nat → List Char
  | [] => []
  | [b1] =>
    [sextetToChar (b1 / 4), sextetToChar (b1 % 4 * 16), '=', '=']
  | [b1, b2] =>
    [sextetToChar (b1 / 4), sextetToChar (b1 % 4 * 16 + b2 / 16),
     sextetToChar (b2 % 16 * 4), '=']
  | b1 :: b2 :: b3 :: rest =>
    sextetToChar (b1 / 4) :: sextetToChar (b1 % 4 * 16 + b2 / 16) ::
      sextetToChar (b2 % 16 * 4 + b3 / 64) :: sextetToChar (b3 % 64) ::
      b64encodeList rest

/-- String form of the standard base64 encoder. -/
def b64encodeString (bytes : List Nat) : String :=
  ⟨b64encodeList bytes⟩

/-- Quantum-wise decoding loop of Go `base64.StdEncoding.Decode`
(padding required, length a multiple of four, `=` only at the end of
the final quantum; the non-strict default mode does not check the
unused trailing bits).  Go reports corrupt input with a byte offset;
the offsets are dropped here, only the failure itself is modelled. -/
def decodeQuanta : List Char → Except String (List Nat)
  | [] => .ok []
  | c1 :: c2 :: c3 :: c4 :: rest =>
    match charToSextet c1, charToSextet c2 with
    | some s1, some s2 =>
      if c3 = '=' then
        if c4 = '=' then
          if rest = [] then .ok [s1 * 4 + s2 / 16]
          else .error "illegal base64 data (padding before end of input)"
        else .error "illegal base64 data (padding before end of quantum)"
      else
        match charToSextet c3 with
        | some s3 =>
          if c4 = '=' then
            if rest = [] then .ok [s1 * 4 + s2 / 16, s2 % 16 * 16 + s3 / 4]
            else .error "illegal base64 data (padding before end of input)"
          else
            match charToSextet c4 with
            | some s4 =>
              (decodeQuanta rest).map fun bs =>
                (s1 * 4 + s2 / 16) :: (s2 % 16 * 16 + s3 / 4) :: (s3 % 4 * 64 + s4) :: bs
            | none => .error "illegal base64 data"
        | none => .error "illegal base64 data"
    | _, _ => .error "illegal base64 data"
  | _ => .error "illegal base64 data (truncated input)"

/-- Go `base64.StdEncoding.DecodeString`: newline characters are
ignored wherever they appear, then the input is decoded quantum by
quantum. -/
def base64StdDecodeString (s : String) : Except String (List Nat) :=
  decodeQuanta (s.data.filter fun c => c != '\r' && c != '\n')

/-- One element of the `data` array of the response envelope
(`imageEditResponse.Data` in the Go source). -/
structure ImageData where
  b64JSON : String
deriving DecidableEq

/-- The `error` object of the response envelope (`apiError` in the Go
source; the Go field `Type` is spelled `etype` here). -/
structure ApiError where
  message : String
  etype : String
  code : String
deriving DecidableEq

/-- The decoded JSON response envelope (`imageEditResponse` in the Go
source): a list of results and an optional error object. -/
structure ImageEditResponse where
  data : List ImageData
  err : Option ApiError
deriving DecidableEq

/-- A file system for the output side: paths mapped to byte contents. -/
def writeFileFS (fs : String → Option (List Nat)) (path : String) (contents : List Nat) :
    String → Option (List Nat) :=
  fun q => if q = path then some contents else fs q

/-- The response-handling tail of `main` (after `json.Unmarshal`):
check the `error` object first, then reject an empty `data` list or an
empty first payload, then base64-decode the payload and write the
bytes to the output file.  The file system is threaded explicitly; the
second component is the process outcome (`.error` models `fatalf`,
which exits without writing). -/
def mainResponseStep (fs : String → Option (List Nat)) (outputFile : String)
    (result : ImageEditResponse) :
    (String → Option (List Nat)) × Except String (List Nat) :=
  match result.err with
  | some e =>
    (fs, .error ("Image edit failed: " ++ e.message ++ " (type=" ++ e.etype ++
      ", code=" ++ e.code ++ ")"))
  | none =>
    match result.data with
    | [] => (fs, .error "Image edit failed: no image data in response")
    | d :: _ =>
      if d.b64JSON = "" then
        (fs, .error "Image edit failed: no image data in response")
      else
        match base64StdDecodeString d.b64JSON with
        | .error msg => (fs, .error ("Error decoding base64 image: " ++ msg))
        | .ok imageBytes => (writeFileFS fs outputFile imageBytes, .ok imageBytes)

/-- ASCII whitespace recognised by Go `strings.TrimSpace` (the inputs
at hand are ASCII). -/
def isSpaceChar (c : Char) : Bool :=
  c == ' ' || c == '\t' || c == '\n' || c == '\x0b' || c == '\x0c' || c == '\r'

/-- Go `strings.TrimSpace`: remove leading and trailing whitespace. -/
def trimSpace (s : String) : String :=
  ⟨((s.data.dropWhile isSpaceChar).reverse.dropWhile isSpaceChar).reverse⟩

/-- Outcome of invoking the `az` CLI binary (`exec.Command` in the root
`main.go`): the binary may be absent from `PATH`, may exit non-zero
with diagnostics on stderr, or may print the token on stdout. -/
inductive AzOutcome where
  | binaryMissing : AzOutcome
  | failed : String → AzOutcome
  | succeeded : String → AzOutcome
deriving DecidableEq

/-- The ambient system as the two token fetchers see it: the result of
running the `az` binary, and the credential sources of the external
credential chain (environment variables, managed identity, cached CLI
login), each either a token or unavailable. -/
structure SystemEnv where
  az : AzOutcome
  envCred : Option String
  managedCred : Option String
  cliCachedCred : Option String
deriving DecidableEq

/-- `getAzureToken` from the root `main.go`: shells out to
`az account get-access-token --resource https://cognitiveservices.azure.com`.
When the binary is absent, `exec` fails before any credential is
consulted; a non-zero exit surfaces the CLI's stderr; on success the
stdout is whitespace-trimmed and returned. -/
def rootGetAzureToken (env : SystemEnv) : Except String String :=
  match env.az with
  | .binaryMissing => .error "exec: \"az\": executable file not found in $PATH"
  | .failed stderr => .error ("az CLI failed: " ++ stderr)
  | .succeeded out => .ok (trimSpace out)

/-- Modelled from the spec: the `azidentity.DefaultAzureCredential`
chain used by `cmd/generate/main.go` is an external library whose
source is not part of this repository; following §4.2/§9 of the spec
it is the capability `acquire_token(scopes) -> token | error` that
tries the environment, managed identity, and cached CLI login in turn
and fails once when no source yields a credential. -/
def defaultAzureCredentialToken (env : SystemEnv) : Except String String :=
  match env.envCred with
  | some tok => .ok tok
  | none =>
    match env.managedCred with
    | some tok => .ok tok
    | none =>
      match env.cliCachedCred with
      | some tok => .ok tok
      | none => .error "DefaultAzureCredential: failed to acquire a token"

/-- `getAzureToken` from `cmd/generate/main.go`: a single `GetToken`
call on `DefaultAzureCredential`; a failure is wrapped once
(`acquiring token: %w`) and returned — no retry in this code. -/
def generateGetAzureToken (env : SystemEnv) : Except String String :=
  match defaultAzureCredentialToken env with
  | .error e => .error ("acquiring token: " ++ e)
  | .ok tok => .ok tok

theorem sextet_round (s : Nat) (h : s < 64) :
    charToSextet (sextetToChar s) = some s ∧ sextetToChar s ≠ '=' ∧
      sextetToChar s ≠ '\r' ∧ sextetToChar s ≠ '\n' := by
  revert h
  revert s
  decide

theorem packDiv (x r k : Nat) (hk : 0 < k) (hr : r < k) : (x * k + r) / k = x := by
  rw [Nat.mul_comm, Nat.mul_add_div hk, Nat.div_eq_of_lt hr, Nat.add_zero]

theorem packMod (x r k : Nat) (hr : r < k) : (x * k + r) % k = r := by
  rw [Nat.mul_comm, Nat.mul_add_mod, Nat.mod_eq_of_lt hr]

theorem decodeQuanta_encode : ∀ (B : List Nat), (∀ b ∈ B, b < 256) →
    decodeQuanta (b64encodeList B) = .ok B
  | [], _ => rfl
  | [b1], h => by
    have h1 : b1 < 256 := h b1 (by simp)
    have e1 := (sextet_round (b1 / 4) (by omega)).1
    have e2 := (sextet_round (b1 % 4 * 16) (by omega)).1
    simp only [b64encodeList, decodeQuanta, e1, e2]
    simp only [reduceIte, if_pos rfl, Except.ok.injEq, List.cons.injEq, and_true]
    have d1 : b1 % 4 * 16 / 16 = b1 % 4 := Nat.mul_div_cancel _ (by norm_num)
    omega
  | [b1, b2], h => by
    have h1 : b1 < 256 := h b1 (by simp)
    have h2 : b2 < 256 := h b2 (by simp)
    have e1 := (sextet_round (b1 / 4) (by omega)).1
    have e2 := (sextet_round (b1 % 4 * 16 + b2 / 16) (by omega)).1
    have e3 := (sextet_round (b2 % 16 * 4) (by omega))
    simp only [b64encodeList, decodeQuanta, e1, e2, e3.1, if_neg e3.2.1]
    simp only [reduceIte, if_pos rfl, Except.ok.injEq, List.cons.injEq, and_true]
    have d1 : (b1 % 4 * 16 + b2 / 16) / 16 = b1 % 4 := packDiv _ _ _ (by norm_num) (by omega)
    have d2 : (b1 % 4 * 16 + b2 / 16) % 16 = b2 / 16 := packMod _ _ _ (by omega)
    have d3 : b2 % 16 * 4 / 4 = b2 % 16 := Nat.mul_div_cancel _ (by norm_num)
    omega
  | b1 :: b2 :: b3 :: rest, h => by
    have h1 : b1 < 256 := h b1 (by simp)
    have h2 : b2 < 256 := h b2 (by simp)
    have h3 : b3 < 256 := h b3 (by simp)
    have ih := decodeQuanta_encode rest (fun b hb => h b (by simp [hb]))
    have e1 := (sextet_round (b1 / 4) (by omega)).1
    have e2 := (sextet_round (b1 % 4 * 16 + b2 / 16) (by omega)).1
    have e3 := (sextet_round (b2 % 16 * 4 + b3 / 64) (by omega))
    have e4 := (sextet_round (b3 % 64) (by omega))
    simp only [b64encodeList, decodeQuanta, e1, e2, e3.1, e4.1,
      if_neg e3.2.1, if_neg e4.2.1, ih, Except.map, Except.ok.injEq, List.cons.injEq]
    have d1 : (b1 % 4 * 16 + b2 / 16) / 16 = b1 % 4 := packDiv _ _ _ (by norm_num) (by omega)
    have d2 : (b1 % 4 * 16 + b2 / 16) % 16 = b2 / 16 := packMod _ _ _ (by omega)
    have d3 : (b2 % 16 * 4 + b3 / 64) / 4 = b2 % 16 := packDiv _ _ _ (by norm_num) (by omega)
    have d4 : (b2 % 16 * 4 + b3 / 64) % 4 = b3 / 64 := packMod _ _ _ (by omega)
    exact ⟨by omega, by omega, by omega, trivial⟩

theorem b64encodeList_mem : ∀ (B : List Nat), (∀ b ∈ B, b < 256) →
    ∀ c ∈ b64encodeList B, c = '=' ∨ ∃ s, s < 64 ∧ c = sextetToChar s
  | [], _ => by simp [b64encodeList]
  | [b1], h => by
    have h1 : b1 < 256 := h b1 (by simp)
    intro c hc
    simp only [b64encodeList, List.mem_cons, List.not_mem_nil, or_false] at hc
    rcases hc with rfl | rfl | rfl | rfl
    · exact Or.inr ⟨b1 / 4, by omega, rfl⟩
    · exact Or.inr ⟨b1 % 4 * 16, by omega, rfl⟩
    · exact Or.inl rfl
    · exact Or.inl rfl
  | [b1, b2], h => by
    have h1 : b1 < 256 := h b1 (by simp)
    have h2 : b2 < 256 := h b2 (by simp)
    intro c hc
    simp only [b64encodeList, List.mem_cons, List.not_mem_nil, or_false] at hc
    rcases hc with rfl | rfl | rfl | rfl
    · exact Or.inr ⟨b1 / 4, by omega, rfl⟩
    · exact Or.inr ⟨b1 % 4 * 16 + b2 / 16, by omega, rfl⟩
    · exact Or.inr ⟨b2 % 16 * 4, by omega, rfl⟩
    · exact Or.inl rfl
  | b1 :: b2 :: b3 :: rest, h => by
    have h1 : b1 < 256 := h b1 (by simp)
    have h2 : b2 < 256 := h b2 (by simp)
    have h3 : b3 < 256 := h b3 (by simp)
    have ih := b64encodeList_mem rest (fun b hb => h b (by simp [hb]))
    intro c hc
    simp only [b64encodeList, List.mem_cons] at hc
    rcases hc with rfl | rfl | rfl | rfl | hc
    · exact Or.inr ⟨b1 / 4, by omega, rfl⟩
    · exact Or.inr ⟨b1 % 4 * 16 + b2 / 16, by omega, rfl⟩
    · exact Or.inr ⟨b2 % 16 * 4 + b3 / 64, by omega, rfl⟩
    · exact Or.inr ⟨b3 % 64, by omega, rfl⟩
    · exact ih c hc

theorem b64_decode_of_encode (B : List Nat) (h : ∀ b ∈ B, b < 256) :
    base64StdDecodeString (b64encodeString B) = .ok B := by
  have hfilter : (b64encodeList B).filter (fun c => c != '\r' && c != '\n') = b64encodeList B := by
    rw [List.filter_eq_self]
    intro c hc
    rcases b64encodeList_mem B h c hc with rfl | ⟨s, hs, rfl⟩
    · decide
    · have := (sextet_round s hs).2
      simp only [bne_iff_ne, ne_eq, Bool.and_eq_true, decide_eq_true_eq]
      exact ⟨this.2.1, this.2.2⟩
  show decodeQuanta ((b64encodeList B).filter _) = .ok B
  rw [hfilter]
  exact decodeQuanta_encode B h

theorem b64encodeList_ne_nil : ∀ (B : List Nat), B ≠ [] → b64encodeList B ≠ []
  | [], h => absurd rfl h
  | [_], _ => by simp [b64encodeList]
  | [_, _], _ => by simp [b64encodeList]
  | _ :: _ :: _ :: _, _ => by simp [b64encodeList]

theorem string_data_append (a b : String) : (a ++ b).data = a.data ++ b.data := by
  cases a
  cases b
  rfl

theorem string_head_append (a m : String) (c : Char) (h : a.data.head? = some c) :
    (a ++ m).data.head? = some c := by
  rw [string_data_append, List.head?_append, h]
  rfl

theorem string_getLast_append (m z : String) (c : Char) (h : z.data.getLast? = some c) :
    (m ++ z).data.getLast? = some c := by
  rw [string_data_append, List.getLast?_append, h]
  rfl

theorem string_ne_of_head (s t : String) (h : s.data.head? ≠ t.data.head?) : s ≠ t :=
  fun he => h (he ▸ rfl)

theorem string_ne_of_getLast (s t : String) (h : s.data.getLast? ≠ t.data.getLast?) : s ≠ t :=
  fun he => h (he ▸ rfl)

/-- The remote-error diagnostic format of `main`. -/
def remoteErrorMsg (e : ApiError) : String :=
  "Image edit failed: " ++ e.message ++ " (type=" ++ e.etype ++ ", code=" ++ e.code ++ ")"

/-- The empty-result diagnostic of `main`. -/
def noImageDataMsg : String :=
  "Image edit failed: no image data in response"

/-- The corrupt-payload diagnostic format of `main`. -/
def decodeErrorMsg (m : String) : String :=
  "Error decoding base64 image: " ++ m

theorem remoteErrorMsg_ne_noImageDataMsg (e : ApiError) :
    remoteErrorMsg e ≠ noImageDataMsg := by
  apply string_ne_of_getLast
  rw [show remoteErrorMsg e = ("Image edit failed: " ++ e.message ++ " (type=" ++ e.etype ++
      ", code=" ++ e.code) ++ ")" from rfl]
  rw [string_getLast_append _ ")" ')' (by decide)]
  decide

theorem decodeErrorMsg_ne_noImageDataMsg (m : String) :
    decodeErrorMsg m ≠ noImageDataMsg := by
  apply string_ne_of_head
  simp only [decodeErrorMsg]
  rw [string_head_append "Error decoding base64 image: " m 'E' (by decide)]
  decide

theorem decodeErrorMsg_ne_remoteErrorMsg (m : String) (e : ApiError) :
    decodeErrorMsg m ≠ remoteErrorMsg e := by
  apply string_ne_of_head
  simp only [decodeErrorMsg]
  rw [string_head_append "Error decoding base64 image: " m 'E' (by decide)]
  rw [show remoteErrorMsg e = "Image edit failed: " ++ (e.message ++ " (type=" ++ e.etype ++
      ", code=" ++ e.code ++ ")") from ?_]
  · rw [string_head_append "Image edit failed: " _ 'I' (by decide)]
    decide
  · simp [remoteErrorMsg, String.append_assoc]

/-- A part is a file part when its `Content-Disposition` carries a
`filename=` attribute (this is how the two tests of the spec tell the
image parts from the scalar text fields). -/
def isFilePart (p : MIMEPart) : Bool :=
  containsSub p.disposition.data "filename=".data

/-- A part carries field name `n` when its `Content-Disposition` opens
with `form-data; name="n"`. -/
def hasFieldName (p : MIMEPart) (n : String) : Bool :=
  ("form-data; name=\"" ++ n ++ "\"").data.isPrefixOf p.disposition.data

theorem containsSub_append (x y pat : List Char) (h : containsSub y pat = true) :
    containsSub (x ++ y) pat = true := by
  induction x with
  | nil => simpa using h
  | cons c cs ih =>
    rw [List.cons_append, containsSub]
    simp [ih]

theorem containsSub_here (y pat : List Char) : containsSub (pat ++ y) pat = true := by
  cases hp : pat ++ y with
  | nil => simp [containsSub, List.isPrefixOf_iff_prefix, ← hp]
  | cons c rest =>
    rw [containsSub, ← hp]
    simp [List.isPrefixOf_iff_prefix.mpr (List.prefix_append pat y)]

theorem isFilePart_mkImagePart (f p c : String) : isFilePart (mkImagePart f p c) = true := by
  have hsplit : (mkImagePart f p c).disposition.data
      = ("form-data; name=\"" ++ f ++ "\"; ").data ++
        ("filename=".data ++ ("\"" ++ filepathBase p ++ "\"").data) := by
    simp [mkImagePart, string_data_append, List.append_assoc]
  rw [isFilePart, hsplit]
  exact containsSub_append _ _ _ (containsSub_here _ _)

theorem hasFieldName_mkImagePart (f p c : String) :
    hasFieldName (mkImagePart f p c) f = true := by
  have hsplit : (mkImagePart f p c).disposition.data
      = ("form-data; name=\"" ++ f ++ "\"").data ++
        ("; filename=\"" ++ filepathBase p ++ "\"").data := by
    simp [mkImagePart, string_data_append, List.append_assoc]
  rw [hasFieldName, hsplit]
  exact List.isPrefixOf_iff_prefix.mpr (List.prefix_append _ _)

theorem hasFieldName_single_not_array (p c : String) :
    hasFieldName (mkImagePart "image" p c) "image[]" = false := by
  have h1 : ("form-data; name=\"" ++ "image[]" ++ "\"").data
      = "form-data; name=\"image".data ++ ('[' :: "]\"".data) := by decide
  have h2 : (mkImagePart "image" p c).disposition.data
      = "form-data; name=\"image".data ++
        ('"' :: ("; filename=\"" ++ filepathBase p ++ "\"").data) := by
    simp [mkImagePart, string_data_append, List.append_assoc]
  rw [hasFieldName, h1, h2]
  apply Bool.eq_false_iff.mpr
  intro h
  have hp := List.isPrefixOf_iff_prefix.mp h
  rw [List.prefix_append_right_inj] at hp
  have := (List.cons_prefix_cons.mp hp).1
  exact absurd this (by decide)

theorem isFilePart_textFieldPart_canonical (kv : String × String) (prompt size : String)
    (hkv : kv ∈ canonicalTextFields prompt size) :
    isFilePart (textFieldPart kv.1 kv.2) = false := by
  simp only [canonicalTextFields, List.mem_cons, List.not_mem_nil, or_false] at hkv
  rcases hkv with rfl | rfl | rfl <;> rfl

theorem filter_isFilePart_textParts (tf : List (String × String)) (prompt size : String)
    (hperm : tf.Perm (canonicalTextFields prompt size)) :
    (tf.map fun kv => textFieldPart kv.1 kv.2).filter isFilePart = [] := by
  rw [List.filter_eq_nil_iff]
  intro a ha
  rcases List.mem_map.mp ha with ⟨kv, hkv, rfl⟩
  rw [isFilePart_textFieldPart_canonical kv prompt size (hperm.mem_iff.mp hkv)]
  exact Bool.false_ne_true

theorem buildMultipartParts_single (fs : String → Option String) (p c : String)
    (tf : List (String × String)) (hc : fs p = some c) :
    buildMultipartParts fs [p] tf =
      .ok (mkImagePart "image" p c :: tf.map fun kv => textFieldPart kv.1 kv.2) := by
  simp [buildMultipartParts, addImagePart, hc, List.mapM, List.mapM.loop, Except.map,
    Except.bind, Except.pure]

theorem buildMultipartParts_pair (fs : String → Option String) (p1 p2 c1 c2 : String)
    (tf : List (String × String)) (hc1 : fs p1 = some c1) (hc2 : fs p2 = some c2) :
    buildMultipartParts fs [p1, p2] tf =
      .ok (mkImagePart "image[]" p1 c1 :: mkImagePart "image[]" p2 c2 ::
        tf.map fun kv => textFieldPart kv.1 kv.2) := by
  simp only [buildMultipartParts, addImagePart, hc1, hc2, List.mapM, List.mapM.loop,
    List.reverse_nil, List.reverse_cons, List.nil_append, List.cons_append]
  rfl

theorem buildMultipartParts_single_err (fs : String → Option String) (p : String)
    (tf : List (String × String)) (hc : fs p = none) :
    buildMultipartParts fs [p] tf = .error ("opening image " ++ p ++ ": no such file") := by
  simp [buildMultipartParts, addImagePart, hc, List.mapM, List.mapM.loop, Except.map,
    Except.bind, Except.pure]

/-- C2: for every call to `buildMultipartBody` with a list of exactly
one image path, the produced multipart body contains exactly one file
part and its field name is `image`, never `image[]`. -/
theorem claim_C2_single_image_part (fs : String → Option String) (p prompt size : String)
    (tf : List (String × String)) (parts : List MIMEPart)
    (hperm : tf.Perm (canonicalTextFields prompt size))
    (hok : buildMultipartParts fs [p] tf = .ok parts) :
    ∃ c, fs p = some c ∧
      parts.filter isFilePart = [mkImagePart "image" p c] ∧
      hasFieldName (mkImagePart "image" p c) "image" = true ∧
      hasFieldName (mkImagePart "image" p c) "image[]" = false := by
  cases hfs : fs p with
  | none =>
    rw [buildMultipartParts_single_err fs p tf hfs] at hok
    exact absurd hok (by simp)
  | some c =>
    rw [buildMultipartParts_single fs p c tf hfs] at hok
    refine ⟨c, rfl, ?_, hasFieldName_mkImagePart "image" p c, hasFieldName_single_not_array p c⟩
    have hparts : parts = mkImagePart "image" p c :: tf.map fun kv => textFieldPart kv.1 kv.2 := by
      exact (Except.ok.injEq _ _ ▸ hok.symm : _)
    rw [hparts, List.filter_cons, if_pos (isFilePart_mkImagePart "image" p c),
      filter_isFilePart_textParts tf prompt size hperm]

theorem buildMultipartParts_pair_err1 (fs : String → Option String) (p1 p2 : String)
    (tf : List (String × String)) (hc1 : fs p1 = none) :
    buildMultipartParts fs [p1, p2] tf =
      .error ("opening image " ++ p1 ++ ": no such file") := by
  simp only [buildMultipartParts, addImagePart, hc1, List.mapM, List.mapM.loop]
  rfl

theorem buildMultipartParts_pair_err2 (fs : String → Option String) (p1 p2 c1 : String)
    (tf : List (String × String)) (hc1 : fs p1 = some c1) (hc2 : fs p2 = none) :
    buildMultipartParts fs [p1, p2] tf =
      .error ("opening image " ++ p2 ++ ": no such file") := by
  simp only [buildMultipartParts, addImagePart, hc1, hc2, List.mapM, List.mapM.loop]
  rfl

/-- C3: for every call to `buildMultipartBody` with the two-image list
assembled by `main` (background first, then foreground), the body
contains exactly two file parts, both with field name `image[]`, in
the caller-supplied order. -/
theorem claim_C3_two_image_parts (fs : String → Option String)
    (bg fg prompt size : String) (tf : List (String × String)) (parts : List MIMEPart)
    (hbg : bg ≠ "") (hperm : tf.Perm (canonicalTextFields prompt size))
    (hok : buildMultipartParts fs (assembleImages bg fg) tf = .ok parts) :
    ∃ c1 c2, fs bg = some c1 ∧ fs fg = some c2 ∧
      parts.filter isFilePart =
        [mkImagePart "image[]" bg c1, mkImagePart "image[]" fg c2] ∧
      hasFieldName (mkImagePart "image[]" bg c1) "image[]" = true ∧
      hasFieldName (mkImagePart "image[]" fg c2) "image[]" = true := by
  rw [show assembleImages bg fg = [bg, fg] by simp [assembleImages, hbg]] at hok
  cases hfs1 : fs bg with
  | none =>
    rw [buildMultipartParts_pair_err1 fs bg fg tf hfs1] at hok
    exact absurd hok (by simp)
  | some c1 =>
    cases hfs2 : fs fg with
    | none =>
      rw [buildMultipartParts_pair_err2 fs bg fg c1 tf hfs1 hfs2] at hok
      exact absurd hok (by simp)
    | some c2 =>
      rw [buildMultipartParts_pair fs bg fg c1 c2 tf hfs1 hfs2] at hok
      refine ⟨c1, c2, rfl, rfl, ?_,
        hasFieldName_mkImagePart "image[]" bg c1, hasFieldName_mkImagePart "image[]" fg c2⟩
      have hparts : parts = mkImagePart "image[]" bg c1 :: mkImagePart "image[]" fg c2 ::
          tf.map fun kv => textFieldPart kv.1 kv.2 := by
        exact (Except.ok.injEq _ _ ▸ hok.symm : _)
      rw [hparts, List.filter_cons, if_pos (isFilePart_mkImagePart "image[]" bg c1),
        List.filter_cons, if_pos (isFilePart_mkImagePart "image[]" fg c2),
        filter_isFilePart_textParts tf prompt size hperm]

/-- Spec-side shape (from the words of the claim): a body consisting of
`blocks` each introduced by a delimiter built from boundary `b` —
`--b` on the first line, `\r\n--b` before every later block. -/
def delimitedChunks (b : String) (first : Bool) : List String → String
  | [] => ""
  | blk :: rest =>
    (if first then "--" else "\r\n--") ++ b ++ "\r\n" ++ blk ++ delimitedChunks b false rest

/-- Spec-side shape of a whole multipart body: delimited blocks
followed by the trailing closing boundary `\r\n--b--\r\n`. -/
def specDelimitedBody (b : String) (blocks : List String) : String :=
  delimitedChunks b true blocks ++ "\r\n--" ++ b ++ "--\r\n"

/-- Spec-side extraction of the `boundary` parameter from an unquoted
`multipart/form-data` content type. -/
def contentTypeBoundary (ct : String) : Option String :=
  if "multipart/form-data; boundary=".data.isPrefixOf ct.data then
    some ⟨ct.data.drop 30⟩
  else none

theorem serializeFrom_blocks (b : String) (first : Bool) (ps : List MIMEPart) :
    serializeFrom b first ps = delimitedChunks b first (ps.map serializeHeaderBlock) := by
  induction ps generalizing first with
  | nil => rfl
  | cons p rest ih => simp [serializeFrom, delimitedChunks, ih]

/-- Hexadecimal characters, as produced by the random boundary of
`multipart.NewWriter` (30 random bytes hex-encoded). -/
def isHexChar (c : Char) : Bool :=
  c ∈ ("0123456789abcdef".data)

theorem formDataContentType_hex (b : String) (hb : ∀ c ∈ b.data, isHexChar c = true) :
    formDataContentType b = "multipart/form-data; boundary=" ++ b := by
  rw [formDataContentType, if_neg]
  simp only [List.any_eq_true, not_exists]
  intro c hc
  have hx : c ∈ "0123456789abcdef".data := by simpa [isHexChar] using hb c hc.1
  have hbad := hc.2
  fin_cases hx <;> exact absurd hbad (by decide)

theorem contentTypeBoundary_append (b : String) :
    contentTypeBoundary ("multipart/form-data; boundary=" ++ b) = some b := by
  rw [contentTypeBoundary, if_pos]
  · congr 1
  · rw [string_data_append]
    exact List.isPrefixOf_iff_prefix.mpr (List.prefix_append _ _)

/-- C7: for every successful call to `buildMultipartBody`, the returned
content type carries a `boundary` parameter equal to the boundary that
delimits every part of the returned body, including the trailing
closing boundary. -/
theorem claim_C7_boundary_matches (fs : String → Option String) (boundary : String)
    (imagePaths : List String) (tf : List (String × String)) (body ct : String)
    (hhex : ∀ c ∈ boundary.data, isHexChar c = true)
    (hok : buildMultipartBody fs boundary imagePaths tf = .ok (body, ct)) :
    contentTypeBoundary ct = some boundary ∧
      ∃ parts blocks, buildMultipartParts fs imagePaths tf = .ok parts ∧
        blocks.length = parts.length ∧ body = specDelimitedBody boundary blocks := by
  cases hparts : buildMultipartParts fs imagePaths tf with
  | error e =>
    rw [buildMultipartBody, hparts] at hok
    exact absurd hok (by simp [Except.map])
  | ok parts =>
    rw [buildMultipartBody, hparts] at hok
    simp only [Except.map, Except.ok.injEq, Prod.mk.injEq] at hok
    obtain ⟨hbody, hct⟩ := hok
    constructor
    · rw [← hct, formDataContentType_hex boundary hhex, contentTypeBoundary_append]
    · refine ⟨parts, parts.map serializeHeaderBlock, rfl, List.length_map _ _, ?_⟩
      simp only [← hbody, serializeFrom_blocks, specDelimitedBody, multipartClose,
        String.append_assoc]

/-- C1: whenever the decoded envelope carries a populated error
object, the decoder fails with the diagnostic carrying the remote
`message`, `type` and `code` verbatim, regardless of the `data` list
(so the remote error takes precedence even over non-empty data), the
file system is untouched, and the failure is never confused with the
no-image-data failure. -/
theorem claim_C1_remote_error_precedence (fs : String → Option (List Nat))
    (out : String) (data : List ImageData) (e : ApiError) :
    mainResponseStep fs out ⟨data, some e⟩ = (fs, .error (remoteErrorMsg e)) ∧
      remoteErrorMsg e =
        "Image edit failed: " ++ e.message ++ " (type=" ++ e.etype ++ ", code=" ++ e.code ++ ")" ∧
      remoteErrorMsg e ≠ noImageDataMsg := by
  exact ⟨rfl, rfl, remoteErrorMsg_ne_noImageDataMsg e⟩

/-- C4: with no error object, an empty `data` list or an empty first
payload produces the distinct `no image data` failure: not a success,
not the remote-error failure, and the file system is untouched. -/
theorem claim_C4_no_image_data (fs : String → Option (List Nat)) (out : String)
    (result : ImageEditResponse) (herr : result.err = none)
    (hdata : result.data = [] ∨ ∃ d rest, result.data = d :: rest ∧ d.b64JSON = "") :
    mainResponseStep fs out result = (fs, .error noImageDataMsg) ∧
      (∀ e : ApiError, noImageDataMsg ≠ remoteErrorMsg e) := by
  refine ⟨?_, fun e => (remoteErrorMsg_ne_noImageDataMsg e).symm⟩
  obtain ⟨d, herr2⟩ := result
  simp only at herr
  subst herr
  rcases hdata with h | ⟨d0, rest, h, hb⟩
  · simp only at h
    subst h
    rfl
  · simp only at h
    subst h
    simp [mainResponseStep, hb, noImageDataMsg]

/-- C6: a first payload that is not valid base64 produces the distinct
corrupt-payload failure, and on this and every other failure path the
file system is untouched — the output file is written only after a
full, successful decode. -/
theorem claim_C6_corrupt_payload (fs : String → Option (List Nat)) (out : String) :
    (∀ (result : ImageEditResponse) (e : String),
        (mainResponseStep fs out result).2 = .error e →
        (mainResponseStep fs out result).1 = fs) ∧
      (∀ (d : ImageData) (rest : List ImageData) (m : String),
        base64StdDecodeString d.b64JSON = .error m →
        mainResponseStep fs out ⟨d :: rest, none⟩ = (fs, .error (decodeErrorMsg m))) ∧
      (∀ m : String, decodeErrorMsg m ≠ noImageDataMsg) ∧
      (∀ (m : String) (e : ApiError), decodeErrorMsg m ≠ remoteErrorMsg e) := by
  refine ⟨?_, ?_, decodeErrorMsg_ne_noImageDataMsg, decodeErrorMsg_ne_remoteErrorMsg⟩
  · intro result e herr
    obtain ⟨dta, oerr⟩ := result
    cases oerr with
    | some e0 => rfl
    | none =>
      cases dta with
      | nil => rfl
      | cons d rest =>
        by_cases hb : d.b64JSON = ""
        · simp [mainResponseStep, hb]
        · cases hdec : base64StdDecodeString d.b64JSON with
          | error m => simp [mainResponseStep, hb, hdec]
          | ok bytes =>
            simp only [mainResponseStep, if_neg hb, hdec] at herr ⊢
            exact absurd herr (by simp)
  · intro d rest m hm
    have hne : d.b64JSON ≠ "" := by
      intro h
      rw [h] at hm
      exact absurd hm (by simp [base64StdDecodeString, decodeQuanta])
    simp [mainResponseStep, hne, hm, decodeErrorMsg]

/-- C5 (amended): for every non-empty byte sequence `B`, a response
whose first payload is the standard base64 encoding of `B` (and no
error object) decodes to exactly `B` and the output file is written
with exactly `B`, byte for byte. -/
theorem claim_C5_roundtrip (fs : String → Option (List Nat)) (out : String)
    (B : List Nat) (hne : B ≠ []) (hb : ∀ b ∈ B, b < 256) :
    mainResponseStep fs out ⟨[⟨b64encodeString B⟩], none⟩ = (writeFileFS fs out B, .ok B) ∧
      writeFileFS fs out B out = some B := by
  have hstr : b64encodeString B ≠ "" := by
    intro h
    exact b64encodeList_ne_nil B hne (congrArg String.data h)
  refine ⟨?_, by simp [writeFileFS]⟩
  simp [mainResponseStep, hstr, b64_decode_of_encode B hb]

/-- An empty file system for the byte side. -/
def emptyByteFS : String → Option (List Nat) := fun _ => none

/-- C5 counterexample: for the empty byte sequence `B = []`, whose
valid standard base64 encoding is the empty string, the decoder does
not produce `B` — it fails with the no-image-data error and writes
nothing. -/
theorem claim_C5_counterexample :
    b64encodeString [] = "" ∧
      mainResponseStep emptyByteFS "out.png" ⟨[⟨b64encodeString []⟩], none⟩ =
        (emptyByteFS, .error noImageDataMsg) ∧
      (mainResponseStep emptyByteFS "out.png" ⟨[⟨b64encodeString []⟩], none⟩).2 ≠
        .ok ([] : List Nat) ∧
      (mainResponseStep emptyByteFS "out.png" ⟨[⟨b64encodeString []⟩], none⟩).1 "out.png" ≠
        some ([] : List Nat) := by
  exact ⟨rfl, rfl, fun h => Except.noConfusion h, fun h => Option.noConfusion h⟩

/-- A system with an environment credential available but no `az`
binary installed. -/
def envNoAzBinary : SystemEnv :=
  { az := .binaryMissing, envCred := some "env-token",
    managedCred := none, cliCachedCred := none }

/-- C9 counterexample: the root tool's `getAzureToken` requires the
`az` binary — with an environment credential available but the binary
absent it fails, so the token is not obtained "without requiring any
specific command-line binary to be present". -/
theorem claim_C9_counterexample :
    envNoAzBinary.envCred = some "env-token" ∧
      rootGetAzureToken envNoAzBinary =
        .error "exec: \"az\": executable file not found in $PATH" ∧
      ∀ tok, rootGetAzureToken envNoAzBinary ≠ .ok tok :=
  ⟨rfl, rfl, fun _ h => Except.noConfusion h⟩

/-- C9 (amended): the `cmd/generate` fetcher obtains the token through
the external credential chain without requiring the `az` binary, and
surfaces a chain failure as one terminal error; the root fetcher
consults nothing but its single `az` invocation (so neither performs
any retry across credential types itself) and fails outright when the
binary is absent. -/
theorem claim_C9_token_acquisition :
    (∀ (env : SystemEnv) (tok : String), env.envCred = some tok →
        generateGetAzureToken env = .ok tok) ∧
      (∀ env : SystemEnv, env.envCred = none → env.managedCred = none →
        env.cliCachedCred = none →
        generateGetAzureToken env =
          .error "acquiring token: DefaultAzureCredential: failed to acquire a token") ∧
      (∀ env1 env2 : SystemEnv, env1.az = env2.az →
        rootGetAzureToken env1 = rootGetAzureToken env2) ∧
      (∀ env : SystemEnv, env.az = .binaryMissing →
        rootGetAzureToken env =
          .error "exec: \"az\": executable file not found in $PATH") := by
  refine ⟨?_, ?_, ?_, ?_⟩
  · intro env tok h
    simp [generateGetAzureToken, defaultAzureCredentialToken, h]
  · intro env h1 h2 h3
    simp [generateGetAzureToken, defaultAzureCredentialToken, h1, h2, h3]
  · intro env1 env2 h
    simp [rootGetAzureToken, h]
  · intro env h
    simp [rootGetAzureToken, h]

/-- C9 witness: a concrete environment with an environment credential
resolves through the chain with no `az` binary present. -/
theorem claim_C9_witness :
    envNoAzBinary.envCred = some "env-token" ∧
      generateGetAzureToken envNoAzBinary = .ok "env-token" :=
  ⟨rfl, claim_C9_token_acquisition.1 envNoAzBinary "env-token" rfl⟩

theorem dropWhileAppendAll {α : Type} (p : α → Bool) (x y : List α)
    (hx : ∀ c ∈ x, p c = true) : (x ++ y).dropWhile p = y.dropWhile p := by
  induction x with
  | nil => rfl
  | cons c cs ih =>
    rw [List.cons_append, List.dropWhile_cons, if_pos (hx c (by simp))]
    exact ih fun a ha => hx a (by simp [ha])

theorem dropWhileConsNeg {α : Type} (p : α → Bool) (c : α) (l : List α)
    (h : p c = false) : (c :: l).dropWhile p = c :: l := by
  rw [List.dropWhile_cons, if_neg (by simp [h])]

theorem takeWhileAppendAll {α : Type} (p : α → Bool) (x y : List α)
    (hx : ∀ c ∈ x, p c = true) : (x ++ y).takeWhile p = x ++ y.takeWhile p := by
  induction x with
  | nil => rfl
  | cons c cs ih =>
    rw [List.cons_append, List.takeWhile_cons, if_pos (hx c (by simp)), ih
      (fun a ha => hx a (by simp [ha])), List.cons_append]

theorem takeWhileConsNeg {α : Type} (p : α → Bool) (c : α) (l : List α)
    (h : p c = false) : (c :: l).takeWhile p = [] := by
  rw [List.takeWhile_cons, if_neg (by simp [h])]

theorem splitChar_append_sep (sep : Char) (a b : List Char)
    (ha : ∀ c ∈ a, c ≠ sep) : splitChar sep (a ++ sep :: b) = a :: splitChar sep b := by
  induction a with
  | nil => simp [splitChar]
  | cons c cs ih =>
    rw [List.cons_append, splitChar]
    rw [if_neg (ha c (by simp)), ih fun a' ha' => ha a' (by simp [ha'])]

theorem splitChar_no_sep (sep : Char) (a : List Char)
    (ha : ∀ c ∈ a, c ≠ sep) : splitChar sep a = [a] := by
  induction a with
  | nil => rfl
  | cons c cs ih =>
    rw [splitChar, if_neg (ha c (by simp)), ih fun a' ha' => ha a' (by simp [ha'])]

/-- A path segment that `Clean` keeps verbatim: non-empty, free of
separators, and neither `.` nor `..`. -/
def goodSeg (z : List Char) : Prop :=
  z ≠ [] ∧ (∀ c ∈ z, c ≠ '/') ∧ z ≠ ['.'] ∧ z ≠ ['.', '.']

theorem cleanPush_goodSeg (rooted : Bool) (stack : List (List Char)) (z : List Char)
    (hz : goodSeg z) : cleanPush rooted stack z = z :: stack := by
  obtain ⟨h1, _, h3, h4⟩ := hz
  rw [cleanPush.eq_def, if_neg (by simp [h1, h3]), if_neg h4]

theorem cleanPush_nil (rooted : Bool) (stack : List (List Char)) :
    cleanPush rooted stack [] = stack := by
  rw [cleanPush.eq_def, if_pos (Or.inl rfl)]

theorem clean_two_segs (x y : List Char) (hx : goodSeg x) (hy : goodSeg y) :
    filepathClean ⟨x ++ '/' :: y⟩ = ⟨x ++ '/' :: y⟩ := by
  obtain ⟨hxne, hxs, hxd1, hxd2⟩ := hx
  cases x with
  | nil => exact absurd rfl hxne
  | cons c x' =>
    have hsplit : splitChar '/' (c :: (x' ++ '/' :: y)) = [c :: x', y] := by
      rw [show c :: (x' ++ '/' :: y) = (c :: x') ++ '/' :: y from rfl,
        splitChar_append_sep '/' (c :: x') y hxs, splitChar_no_sep '/' y hy.2.1]
    have hcne : c ≠ '/' := hxs c (by simp)
    show filepathClean ⟨c :: (x' ++ '/' :: y)⟩ = _
    rw [filepathClean.eq_def]
    simp only [hsplit, List.foldl_cons, List.foldl_nil,
      cleanPush_goodSeg _ _ _ ⟨hxne, hxs, hxd1, hxd2⟩, cleanPush_goodSeg _ _ _ hy,
      List.reverse_cons, List.reverse_nil, List.nil_append, List.cons_append]
    rw [if_neg hcne]
    have hjoin : joinSegs [c :: x', y] = (c :: x') ++ '/' :: y := rfl
    simp [hjoin]

theorem clean_seg_slash (x : List Char) (hx : goodSeg x) :
    filepathClean ⟨x ++ ['/']⟩ = ⟨x⟩ := by
  obtain ⟨hxne, hxs, hxd1, hxd2⟩ := hx
  cases x with
  | nil => exact absurd rfl hxne
  | cons c x' =>
    have hsplit : splitChar '/' (c :: (x' ++ ['/'])) = [c :: x', []] := by
      rw [show c :: (x' ++ ['/']) = (c :: x') ++ '/' :: [] from rfl,
        splitChar_append_sep '/' (c :: x') [] hxs]
      rfl
    have hcne : c ≠ '/' := hxs c (by simp)
    show filepathClean ⟨c :: (x' ++ ['/'])⟩ = _
    rw [filepathClean.eq_def]
    simp only [hsplit, List.foldl_cons, List.foldl_nil,
      cleanPush_goodSeg _ _ _ ⟨hxne, hxs, hxd1, hxd2⟩, cleanPush_nil,
      List.reverse_cons, List.reverse_nil, List.nil_append]
    rw [if_neg hcne]
    simp [joinSegs]

/-- A plain path segment: non-empty and free of both separators and
dots. -/
def plainSeg (z : List Char) : Prop :=
  z ≠ [] ∧ ∀ c ∈ z, c ≠ '/' ∧ c ≠ '.'

theorem plainSeg_goodSeg (z : List Char) (h : plainSeg z) : goodSeg z := by
  obtain ⟨h1, h2⟩ := h
  refine ⟨h1, fun c hc => (h2 c hc).1, ?_, ?_⟩ <;>
    · rintro rfl
      exact (h2 '.' (by simp)).2 rfl

theorem trimSuffix_append (s suf : String) : trimSuffix (s ++ suf) suf = s := by
  rw [trimSuffix, if_pos]
  · rw [string_data_append, List.length_append, Nat.add_sub_cancel, List.take_left]
  · rw [string_data_append]
    exact List.isSuffixOf_iff_suffix.mpr (List.suffix_append _ _)

theorem filepathDir_shape (D SE : List Char) (hD : plainSeg D)
    (hSE : ∀ c ∈ SE, c ≠ '/') :
    filepathDir ⟨D ++ '/' :: SE⟩ = ⟨D⟩ := by
  rw [filepathDir]
  have hrev : (D ++ '/' :: SE).reverse = SE.reverse ++ '/' :: D.reverse := by
    simp
  rw [show (⟨D ++ '/' :: SE⟩ : String).data = D ++ '/' :: SE from rfl, hrev,
    dropWhileAppendAll _ _ _ (fun c hc => by
      simp only [decide_eq_true_eq]
      exact hSE c (List.mem_reverse.mp hc)),
    dropWhileConsNeg _ _ _ (by simp), List.reverse_cons, List.reverse_reverse]
  exact clean_seg_slash D (plainSeg_goodSeg D hD)

theorem filepathBase_shape (D SE : List Char) (hSE : SE ≠ [])
    (hSEs : ∀ c ∈ SE, c ≠ '/') :
    filepathBase ⟨D ++ '/' :: SE⟩ = ⟨SE⟩ := by
  rw [filepathBase, if_neg (fun h => by
    have := congrArg String.data h
    simp at this)]
  have hrev : (⟨D ++ '/' :: SE⟩ : String).data.reverse = SE.reverse ++ '/' :: D.reverse := by
    simp
  cases hr : SE.reverse with
  | nil => exact absurd (by simpa using congrArg List.reverse hr) hSE
  | cons r rs =>
    have hrne : r ≠ '/' := hSEs r (List.mem_reverse.mp (hr ▸ List.mem_cons_self r rs))
    rw [hrev, hr, List.cons_append, dropWhileConsNeg _ _ _ (by simp [hrne])]
    have hname : List.takeWhile (fun c => decide (c ≠ '/')) (r :: (rs ++ '/' :: D.reverse))
        = r :: rs := by
      rw [show r :: (rs ++ '/' :: D.reverse) = (r :: rs) ++ '/' :: D.reverse from rfl]
      rw [takeWhileAppendAll _ (r :: rs) _ (fun c hc => by
        simp only [decide_eq_true_eq]
        exact hSEs c (List.mem_reverse.mp (hr ▸ hc))),
        takeWhileConsNeg _ _ _ (by simp), List.append_nil]
    simp only [hname]
    rw [if_neg (by simp), ← hr, List.reverse_reverse]

theorem filepathExt_shape_noDot (D S : List Char) (hS : plainSeg S) :
    filepathExt ⟨D ++ '/' :: S⟩ = "" := by
  rw [filepathExt]
  have hrev : (⟨D ++ '/' :: S⟩ : String).data.reverse = S.reverse ++ '/' :: D.reverse := by
    simp
  have htail : List.takeWhile (fun c => decide (c ≠ '/')) (S.reverse ++ '/' :: D.reverse)
      = S.reverse := by
    rw [takeWhileAppendAll _ _ _ (fun c hc => by
      simp only [decide_eq_true_eq]
      exact (hS.2 c (List.mem_reverse.mp hc)).1),
      takeWhileConsNeg _ _ _ (by simp), List.append_nil]
  have hpre : List.takeWhile (fun c => decide (c ≠ '.')) S.reverse = S.reverse := by
    rw [List.takeWhile_eq_self_iff]
    intro c hc
    simp only [decide_eq_true_eq]
    exact (hS.2 c (List.mem_reverse.mp hc)).2
  simp only [hrev, htail, hpre]
  rfl

theorem filepathExt_shape_dot (D S e : List Char)
    (hS : ∀ c ∈ S, c ≠ '/' ∧ c ≠ '.') (he : plainSeg e) :
    filepathExt ⟨D ++ '/' :: (S ++ '.' :: e)⟩ = ⟨'.' :: e⟩ := by
  rw [filepathExt]
  have hrev : (⟨D ++ '/' :: (S ++ '.' :: e)⟩ : String).data.reverse
      = (e.reverse ++ '.' :: S.reverse) ++ '/' :: D.reverse := by
    simp
  have htail : List.takeWhile (fun c => decide (c ≠ '/'))
      ((e.reverse ++ '.' :: S.reverse) ++ '/' :: D.reverse)
      = e.reverse ++ '.' :: S.reverse := by
    rw [takeWhileAppendAll _ _ _ (fun c hc => by
      simp only [decide_eq_true_eq]
      simp only [List.mem_append, List.mem_cons, List.mem_reverse] at hc
      rcases hc with hc | hc | hc
      · exact (he.2 c hc).1
      · subst hc
        decide
      · exact (hS c hc).1),
      takeWhileConsNeg _ _ _ (by simp), List.append_nil]
  have hpre : List.takeWhile (fun c => decide (c ≠ '.')) (e.reverse ++ '.' :: S.reverse)
      = e.reverse := by
    rw [takeWhileAppendAll _ _ _ (fun c hc => by
      simp only [decide_eq_true_eq]
      exact (he.2 c (List.mem_reverse.mp hc)).2),
      takeWhileConsNeg _ _ _ (by simp), List.append_nil]
  simp only [hrev, htail, hpre]
  rw [if_neg (by
    simp only [List.length_append, List.length_cons, List.length_reverse]
    omega)]
  rw [List.reverse_reverse]

theorem filepathJoin_plain (D N : List Char) (hD : plainSeg D) (hN : goodSeg N) :
    filepathJoin ⟨D⟩ ⟨N⟩ = ⟨D ++ '/' :: N⟩ := by
  rw [filepathJoin, if_neg (fun h => hD.1 (congrArg String.data h))]
  rw [show (⟨D⟩ : String) ++ "/" ++ (⟨N⟩ : String) = (⟨D ++ '/' :: N⟩ : String) from
    String.ext (by simp [string_data_append])]
  exact clean_two_segs D N (plainSeg_goodSeg D hD) hN

/-- C8: `deriveOutputPath` inserts the fixed suffix `"_generated"`
before the file extension.  For every well formed `dir/name[.ext]`
input — directory and stem non-empty and free of slashes and dots,
extension either absent or a dot followed by a non-empty plain
suffix — the suffix is inserted right before the extension; in
particular `assets/cat.png ↦ assets/cat_generated.png` and the
extension-free `assets/cat ↦ assets/cat_generated`. -/
theorem claim_C8_output_path (d stem ext : String)
    (hd : plainSeg d.data) (hstem : plainSeg stem.data)
    (hext : ext = "" ∨ ∃ e : String, ext = "." ++ e ∧ plainSeg e.data) :
    deriveOutputPath (d ++ "/" ++ stem ++ ext) = d ++ "/" ++ stem ++ "_generated" ++ ext ∧
      deriveOutputPath "assets/cat.png" = "assets/cat_generated.png" ∧
      deriveOutputPath "assets/cat" = "assets/cat_generated" := by
  refine ⟨?_, by decide, by decide⟩
  have hdata : d ++ "/" ++ stem ++ ext = (⟨d.data ++ '/' :: (stem.data ++ ext.data)⟩ : String) :=
    String.ext (by simp [string_data_append])
  have hSEs : ∀ c ∈ stem.data ++ ext.data, c ≠ '/' := by
    intro c hc
    rcases List.mem_append.mp hc with hc | hc
    · exact (hstem.2 c hc).1
    · rcases hext with h | ⟨e, he, hpe⟩
      · rw [h] at hc
        simp at hc
      · rw [he] at hc
        rcases List.mem_cons.mp (by simpa [string_data_append] using hc) with rfl | hc2
        · decide
        · exact (hpe.2 c hc2).1
  have hdir : filepathDir (d ++ "/" ++ stem ++ ext) = d := by
    rw [hdata, filepathDir_shape d.data _ hd hSEs]
  have hbase : filepathBase (d ++ "/" ++ stem ++ ext) = stem ++ ext := by
    rw [hdata, filepathBase_shape d.data _ (by simp [hstem.1]) hSEs]
    exact String.ext (by simp [string_data_append])
  have hextv : filepathExt (d ++ "/" ++ stem ++ ext) = ext := by
    rcases hext with h | ⟨e, he, hpe⟩
    · subst h
      rw [hdata]
      simp only [String.data, List.append_nil]
      exact filepathExt_shape_noDot d.data stem.data hstem
    · subst he
      rw [hdata]
      have : stem.data ++ ("." ++ e).data = stem.data ++ '.' :: e.data := by
        simp [string_data_append]
      rw [this, filepathExt_shape_dot d.data stem.data e.data hstem.2 hpe]
      exact String.ext (by simp [string_data_append])
  have htrim : trimSuffix (filepathBase (d ++ "/" ++ stem ++ ext))
      (filepathExt (d ++ "/" ++ stem ++ ext)) = stem := by
    rw [hbase, hextv, trimSuffix_append]
  have hN : goodSeg (stem ++ "_generated" ++ ext).data := by
    refine ⟨?_, ?_, ?_, ?_⟩
    · intro h
      have := congrArg List.length h
      simp [string_data_append, List.length_append] at this
    · intro c hc
      simp only [string_data_append, List.mem_append] at hc
      rcases hc with (hc | hc) | hc
      · exact (hstem.2 c hc).1
      · fin_cases hc <;> decide
      · rcases hext with h | ⟨e, he, hpe⟩
        · rw [h] at hc
          simp at hc
        · rw [he] at hc
          rcases List.mem_cons.mp (by simpa [string_data_append] using hc) with rfl | hc2
          · decide
          · exact (hpe.2 c hc2).1
    · intro h
      have := congrArg List.length h
      simp [string_data_append, List.length_append] at this
      omega
    · intro h
      have := congrArg List.length h
      simp [string_data_append, List.length_append] at this
      omega
  show filepathJoin (filepathDir (d ++ "/" ++ stem ++ ext))
      (trimSuffix (filepathBase (d ++ "/" ++ stem ++ ext))
        (filepathExt (d ++ "/" ++ stem ++ ext)) ++ "_generated" ++
        filepathExt (d ++ "/" ++ stem ++ ext)) =
    d ++ "/" ++ stem ++ "_generated" ++ ext
  rw [hdir, htrim, hextv]
  rw [show (d : String) = (⟨d.data⟩ : String) from rfl,
    show (stem ++ "_generated" ++ ext : String) = (⟨(stem ++ "_generated" ++ ext).data⟩ : String)
      from rfl]
  rw [filepathJoin_plain d.data (stem ++ "_generated" ++ ext).data hd hN]
  exact String.ext (by simp [string_data_append])

/-- A small concrete file system for witnesses. -/
def wFS : String → Option String :=
  fun p => if p = "cat.png" then some "IMG" else if p = "bg.jpg" then some "BG" else none

/-- The parts of a witness single-image build. -/
def wPartsSingle : List MIMEPart :=
  [mkImagePart "image" "cat.png" "IMG", textFieldPart "prompt" "hi",
    textFieldPart "n" "1", textFieldPart "size" "512x512"]

/-- The parts of a witness two-image build. -/
def wPartsPair : List MIMEPart :=
  [mkImagePart "image[]" "bg.jpg" "BG", mkImagePart "image[]" "cat.png" "IMG",
    textFieldPart "prompt" "hi", textFieldPart "n" "1", textFieldPart "size" "512x512"]

theorem claim_C1_witness :
    mainResponseStep emptyByteFS "o.png" ⟨[⟨"QUFB"⟩], some ⟨"boom", "bad_request", "400"⟩⟩ =
      (emptyByteFS, .error (remoteErrorMsg ⟨"boom", "bad_request", "400"⟩)) ∧
      remoteErrorMsg ⟨"boom", "bad_request", "400"⟩ =
        "Image edit failed: " ++ "boom" ++ " (type=" ++ "bad_request" ++ ", code=" ++
          "400" ++ ")" ∧
      remoteErrorMsg ⟨"boom", "bad_request", "400"⟩ ≠ noImageDataMsg :=
  claim_C1_remote_error_precedence emptyByteFS "o.png" [⟨"QUFB"⟩] ⟨"boom", "bad_request", "400"⟩

theorem claim_C2_witness :
    (canonicalTextFields "hi" "512x512").Perm (canonicalTextFields "hi" "512x512") ∧
      buildMultipartParts wFS ["cat.png"] (canonicalTextFields "hi" "512x512") =
        .ok wPartsSingle ∧
      ∃ c, wFS "cat.png" = some c ∧
        wPartsSingle.filter isFilePart = [mkImagePart "image" "cat.png" c] ∧
        hasFieldName (mkImagePart "image" "cat.png" c) "image" = true ∧
        hasFieldName (mkImagePart "image" "cat.png" c) "image[]" = false :=
  ⟨List.Perm.refl _, rfl,
    claim_C2_single_image_part wFS "cat.png" "hi" "512x512" _ wPartsSingle
      (List.Perm.refl _) rfl⟩

theorem claim_C3_witness :
    ("bg.jpg" : String) ≠ "" ∧
      buildMultipartParts wFS (assembleImages "bg.jpg" "cat.png")
        (canonicalTextFields "hi" "512x512") = .ok wPartsPair ∧
      ∃ c1 c2, wFS "bg.jpg" = some c1 ∧ wFS "cat.png" = some c2 ∧
        wPartsPair.filter isFilePart =
          [mkImagePart "image[]" "bg.jpg" c1, mkImagePart "image[]" "cat.png" c2] ∧
        hasFieldName (mkImagePart "image[]" "bg.jpg" c1) "image[]" = true ∧
        hasFieldName (mkImagePart "image[]" "cat.png" c2) "image[]" = true :=
  ⟨by decide, rfl,
    claim_C3_two_image_parts wFS "bg.jpg" "cat.png" "hi" "512x512" _ wPartsPair
      (by decide) (List.Perm.refl _) rfl⟩

theorem claim_C4_witness :
    (⟨[], none⟩ : ImageEditResponse).err = none ∧
      mainResponseStep emptyByteFS "o.png" ⟨[], none⟩ = (emptyByteFS, .error noImageDataMsg) ∧
      ∀ e : ApiError, noImageDataMsg ≠ remoteErrorMsg e :=
  ⟨rfl, (claim_C4_no_image_data emptyByteFS "o.png" ⟨[], none⟩ rfl (Or.inl rfl)).1,
    (claim_C4_no_image_data emptyByteFS "o.png" ⟨[], none⟩ rfl (Or.inl rfl)).2⟩

theorem claim_C5_witness :
    ([202, 254] : List Nat) ≠ [] ∧ (∀ b ∈ ([202, 254] : List Nat), b < 256) ∧
      mainResponseStep emptyByteFS "o.png" ⟨[⟨b64encodeString [202, 254]⟩], none⟩ =
        (writeFileFS emptyByteFS "o.png" [202, 254], .ok [202, 254]) ∧
      writeFileFS emptyByteFS "o.png" [202, 254] "o.png" = some [202, 254] :=
  ⟨by decide, by decide,
    (claim_C5_roundtrip emptyByteFS "o.png" [202, 254] (by decide) (by decide)).1,
    (claim_C5_roundtrip emptyByteFS "o.png" [202, 254] (by decide) (by decide)).2⟩

theorem claim_C6_witness :
    base64StdDecodeString "!!!!" = .error "illegal base64 data" ∧
      mainResponseStep emptyByteFS "o.png" ⟨[⟨"!!!!"⟩], none⟩ =
        (emptyByteFS, .error (decodeErrorMsg "illegal base64 data")) :=
  ⟨rfl, (claim_C6_corrupt_payload emptyByteFS "o.png").2.1 ⟨"!!!!"⟩ [] "illegal base64 data" rfl⟩

/-- Witness body for C7. -/
def wBody : String := serializeFrom "abc123" true wPartsSingle ++ multipartClose "abc123"

/-- Witness content type for C7. -/
def wCT : String := formDataContentType "abc123"

theorem claim_C7_witness :
    (∀ c ∈ ("abc123" : String).data, isHexChar c = true) ∧
      buildMultipartBody wFS "abc123" ["cat.png"] (canonicalTextFields "hi" "512x512") =
        .ok (wBody, wCT) ∧
      (contentTypeBoundary wCT = some "abc123" ∧
        ∃ parts blocks,
          buildMultipartParts wFS ["cat.png"] (canonicalTextFields "hi" "512x512") =
            .ok parts ∧
          blocks.length = parts.length ∧ wBody = specDelimitedBody "abc123" blocks) :=
  ⟨by decide, rfl,
    claim_C7_boundary_matches wFS "abc123" ["cat.png"] (canonicalTextFields "hi" "512x512")
      wBody wCT (by decide) rfl⟩

theorem claim_C8_witness :
    plainSeg ("assets" : String).data ∧ plainSeg ("cat" : String).data ∧
      ((".png" : String) = "" ∨ ∃ e : String, (".png" : String) = "." ++ e ∧ plainSeg e.data) ∧
      (deriveOutputPath ("assets" ++ "/" ++ "cat" ++ ".png") =
          "assets" ++ "/" ++ "cat" ++ "_generated" ++ ".png" ∧
        deriveOutputPath "assets/cat.png" = "assets/cat_generated.png" ∧
        deriveOutputPath "assets/cat" = "assets/cat_generated") :=
  ⟨⟨by decide, by decide⟩, ⟨by decide, by decide⟩,
    Or.inr ⟨"png", by decide, ⟨by decide, by decide⟩⟩,
    claim_C8_output_path "assets" "cat" ".png" ⟨by decide, by decide⟩ ⟨by decide, by decide⟩
      (Or.inr ⟨"png", by decide, ⟨by decide, by decide⟩⟩)⟩

/-- C10: for every path whose base name begins with a dot and contains
no other dot — directory and dotfile suffix non-empty and free of
slashes and dots — the whole base name is treated as the extension:
`deriveOutputPath (d ++ "/." ++ e)` is the directory joined with
`"_generated"` followed by the full base name, and never the base name
with `"_generated"` appended; in particular `dir/.env` maps to
`dir/_generated.env`. -/
theorem claim_C10_dotfile_extension (d e : String)
    (hd : plainSeg d.data) (he : plainSeg e.data) :
    deriveOutputPath (d ++ "/." ++ e) = d ++ "/_generated." ++ e ∧
      deriveOutputPath (d ++ "/." ++ e) ≠ d ++ "/." ++ e ++ "_generated" ∧
      deriveOutputPath "dir/.env" = "dir/_generated.env" := by
  have hdata : d ++ "/." ++ e = (⟨d.data ++ '/' :: ('.' :: e.data)⟩ : String) :=
    String.ext (by simp [string_data_append])
  have hSEs : ∀ c ∈ '.' :: e.data, c ≠ '/' := by
    intro c hc
    rcases List.mem_cons.mp hc with rfl | hc
    · decide
    · exact (he.2 c hc).1
  have hdir : filepathDir (d ++ "/." ++ e) = d := by
    rw [hdata, filepathDir_shape d.data _ hd hSEs]
  have hbase : filepathBase (d ++ "/." ++ e) = "." ++ e := by
    rw [hdata, filepathBase_shape d.data _ (by simp) hSEs]
    exact String.ext (by simp [string_data_append])
  have hextv : filepathExt (d ++ "/." ++ e) = "." ++ e := by
    rw [hdata,
      show (⟨d.data ++ '/' :: ('.' :: e.data)⟩ : String)
          = ⟨d.data ++ '/' :: ([] ++ '.' :: e.data)⟩ from rfl,
      filepathExt_shape_dot d.data [] e.data (by simp) he]
    exact String.ext (by simp [string_data_append])
  have htrim : trimSuffix (filepathBase (d ++ "/." ++ e)) (filepathExt (d ++ "/." ++ e)) = "" := by
    rw [hbase, hextv]
    exact trimSuffix_append "" ("." ++ e)
  have hN : goodSeg ("" ++ "_generated" ++ ("." ++ e)).data := by
    refine ⟨?_, ?_, ?_, ?_⟩
    · intro h
      have := congrArg List.length h
      simp [string_data_append, List.length_append] at this
    · intro c hc
      simp only [string_data_append, List.mem_append] at hc
      rcases hc with (hc | hc) | hc
      · simp at hc
      · fin_cases hc <;> decide
      · rcases List.mem_cons.mp (by simpa [string_data_append] using hc) with rfl | hc2
        · decide
        · exact (he.2 c hc2).1
    · intro h
      have := congrArg List.length h
      simp [string_data_append, List.length_append] at this
    · intro h
      have := congrArg List.length h
      simp [string_data_append, List.length_append] at this
  have hmain : deriveOutputPath (d ++ "/." ++ e) = d ++ "/_generated." ++ e := by
    show filepathJoin (filepathDir (d ++ "/." ++ e))
        (trimSuffix (filepathBase (d ++ "/." ++ e)) (filepathExt (d ++ "/." ++ e)) ++
          "_generated" ++ filepathExt (d ++ "/." ++ e)) =
      d ++ "/_generated." ++ e
    rw [hdir, htrim, hextv]
    rw [show (d : String) = (⟨d.data⟩ : String) from rfl,
      show ("" ++ "_generated" ++ ("." ++ e) : String)
          = (⟨("" ++ "_generated" ++ ("." ++ e)).data⟩ : String) from rfl,
      filepathJoin_plain d.data ("" ++ "_generated" ++ ("." ++ e)).data hd hN]
    exact String.ext (by simp [string_data_append])
  refine ⟨hmain, ?_, by decide⟩
  rw [hmain]
  intro h
  have hL : (d ++ "/_generated." ++ e).data
      = d.data ++ '/' :: ('_' :: ("generated." ++ e).data) := by
    simp [string_data_append]
  have hR : (d ++ "/." ++ e ++ "_generated").data
      = d.data ++ '/' :: ('.' :: (e ++ "_generated").data) := by
    simp [string_data_append]
  have h2 := congrArg String.data h
  rw [hL, hR] at h2
  have h3 := List.append_cancel_left h2
  injection h3 with h4 h5
  injection h5 with h6 h7
  exact absurd h6 (by decide)

theorem claim_C10_witness :
    plainSeg ("dir" : String).data ∧ plainSeg ("env" : String).data ∧
      (deriveOutputPath ("dir" ++ "/." ++ "env") = "dir" ++ "/_generated." ++ "env" ∧
        deriveOutputPath ("dir" ++ "/." ++ "env") ≠ "dir" ++ "/." ++ "env" ++ "_generated" ∧
        deriveOutputPath "dir/.env" = "dir/_generated.env") :=
  ⟨⟨by decide, by decide⟩, ⟨by decide, by decide⟩,
    claim_C10_dotfile_extension "dir" "env" ⟨by decide, by decide⟩ ⟨by decide, by decide⟩⟩
